import Mathlib

/-!
Verification development for the sql-to-json-converter repository.

The repository contains two near-duplicate implementations of the converter
core: a TypeScript one (the library, `SQLToJSONConverter` in the TS source)
and a JavaScript one (`bin/cli.js`).  Both are embedded below.  JS strings
are modelled as Lean `String` (a wrapper around `List Char`); the handful of
JS string primitives the code uses (`trim`, `toUpperCase`, `startsWith`,
`indexOf`, `lastIndexOf`, `substring`, `slice`, `split`) and the concrete
regular expressions appearing in the source are each translated into
explicit scanning functions with JS semantics (leftmost match, greedy or
lazy quantifiers as written, `.` not matching line terminators, `\s`
matching ASCII whitespace, case-insensitive flags via upper-casing).
Machine numbers are modelled as `Nat`/`Int`; `parseFloat` results are kept
as the matched numeral text since nothing in the program inspects the
floating-point value.
-/

namespace SQLJson

/-- ASCII whitespace, matching the JS `\s` class and `String.prototype.trim`
on the ASCII range (space, tab, CR, LF, vertical tab, form feed). -/
def isWS (c : Char) : Bool := c.isWhitespace || c = '\x0b' || c = '\x0c'

/-- Upper-case a character list, modelling `toUpperCase` on ASCII input. -/
def upperL (l : List Char) : List Char := l.map Char.toUpper

/-- Remove leading and trailing whitespace, modelling `String.prototype.trim`. -/
def trimChars (l : List Char) : List Char :=
  ((l.dropWhile isWS).reverse.dropWhile isWS).reverse

/-- Model of `s.trim()`. -/
def jsTrim (s : String) : String := ⟨trimChars s.data⟩

/-- Model of `s.toUpperCase()` (ASCII). -/
def jsToUpper (s : String) : String := ⟨upperL s.data⟩

/-- Model of `s.startsWith(p)`. -/
def jsStartsWith (s p : String) : Bool := p.data.isPrefixOf s.data

/-- Does `pat` occur as a contiguous substring of the list?  Models
`String.prototype.includes`. -/
def hasSub (pat : List Char) : List Char → Bool
  | [] => pat.isPrefixOf []
  | l@(_ :: t) => pat.isPrefixOf l || hasSub pat t

/-- Model of `s.indexOf(c)` (as an `Option` instead of `-1`). -/
def idxOf : List Char → Char → Option Nat
  | [], _ => none
  | a :: t, c => if a = c then some 0 else (idxOf t c).map (· + 1)

/-- Model of `s.lastIndexOf(c)` (as an `Option` instead of `-1`). -/
def lastIdxOf (l : List Char) (c : Char) : Option Nat :=
  (idxOf l.reverse c).map (fun i => l.length - 1 - i)

/-- Model of `s.substring(a, b)`: JS swaps the arguments when `a > b`. -/
def jsSubstring (l : List Char) (a b : Nat) : List Char :=
  (l.take (max a b)).drop (min a b)

/-- Model of `s.split(sep)` for a single separator character. -/
def splitOnCharGo (sep : Char) : List Char → List Char → List (List Char)
  | [], acc => [acc]
  | c :: t, acc => if c = sep then acc :: splitOnCharGo sep t [] else splitOnCharGo sep t (acc ++ [c])

def splitOnChar (l : List Char) (sep : Char) : List (List Char) := splitOnCharGo sep l []

/-- Case-insensitive literal prefix match: on success, return the rest of the
input.  Used for the case-insensitive literal parts of the source regexes. -/
def stripPrefixCI : List Char → List Char → Option (List Char)
  | [], l => some l
  | _ :: _, [] => none
  | p :: ps, c :: cs => if p.toUpper = c.toUpper then stripPrefixCI ps cs else none

/-! ## Typed literal values (the Literal Normalizer, `cleanValue`) -/

/-- Result values of `cleanValue`: JS `null`, integers from `parseInt`,
floats from `parseFloat` (kept as the matched numeral text), and strings. -/
inductive SQLValue where
  | nullVal : SQLValue
  | intVal (n : Int) : SQLValue
  | floatVal (numeral : String) : SQLValue
  | strVal (s : String) : SQLValue
deriving DecidableEq, Repr

/-- The regex `^-?\d+$` from `cleanValue`. -/
def intPattern : List Char → Bool
  | '-' :: rest => !rest.isEmpty && rest.all Char.isDigit
  | l => !l.isEmpty && l.all Char.isDigit

/-- The mantissa part `\d+\.\d+` of the float regex. -/
def floatPatternCore (l : List Char) : Bool :=
  let d1 := l.takeWhile Char.isDigit
  !d1.isEmpty &&
    (match l.drop d1.length with
     | '.' :: d2 => !d2.isEmpty && d2.all Char.isDigit
     | _ => false)

/-- The regex `^-?\d+\.\d+$` from `cleanValue`. -/
def floatPattern : List Char → Bool
  | '-' :: rest => floatPatternCore rest
  | l => floatPatternCore l

def digitsToNat (l : List Char) : Nat :=
  l.foldl (fun a c => a * 10 + (c.toNat - '0'.toNat)) 0

/-- `parseInt` on a token already known to match `^-?\d+$`. -/
def parseIntJS (l : List Char) : Int :=
  match l with
  | '-' :: rest => - (digitsToNat rest : Int)
  | _ => (digitsToNat l : Int)

/-- Global replacement of the two-character sequence backslash-`q` by `q`,
left to right and non-overlapping: models `replace` with a global regex of
an escaped quote. -/
def replacePair (q : Char) : List Char → List Char
  | [] => []
  | '\\' :: c :: rest =>
      if c = q then c :: replacePair q rest else '\\' :: replacePair q (c :: rest)
  | c :: rest => c :: replacePair q rest

/-- Model of `s.slice(1, -1)`. -/
def jsSlice1Neg1 (l : List Char) : List Char := (l.drop 1).dropLast

def startsWithCh (l : List Char) (c : Char) : Bool :=
  match l with
  | a :: _ => a = c
  | [] => false

def endsWithCh (l : List Char) (c : Char) : Bool :=
  match l.getLast? with
  | some a => a = c
  | none => false

/-- Embedding of `cleanValue` (identical in the TS and the JS source): trim,
then `NULL` check, then quoted-string check with the two escape rewrites,
then the integer and float patterns, else the token verbatim. -/
def cleanValue (value : String) : SQLValue :=
  let v := trimChars value.data
  if upperL v = "NULL".data then SQLValue.nullVal
  else if (startsWithCh v '\x27' && endsWithCh v '\x27') ||
          (startsWithCh v '"' && endsWithCh v '"') then
    SQLValue.strVal ⟨replacePair '"' (replacePair '\x27' (jsSlice1Neg1 v))⟩
  else if intPattern v then SQLValue.intVal (parseIntJS v)
  else if floatPattern v then SQLValue.floatVal ⟨v⟩
  else SQLValue.strVal ⟨v⟩

/-! ## The Value Tokenizer (`parseValues`, identical in both sources up to an
unused local variable in the JS one) -/

/-- The character scan of `parseValues`: `prev` is the character at the
previous input position (`valueString[i - 1]`), `current` the accumulated
buffer, and `inString`, `stringChar`, `depth` the scanner state from the
source.  At a comma outside strings at depth 0 the buffer is emitted
through `cleanValue`; at end of input the buffer is emitted only when its
trimmed form is non-empty. -/
def parseValuesGo : List Char → Option Char → List Char → Bool → Char → Int → List SQLValue
  | [], _, current, _, _, _ =>
      if trimChars current = [] then [] else [cleanValue ⟨trimChars current⟩]
  | c :: rest, prev, current, inString, stringChar, depth =>
      if !inString then
        if c = '\x27' ∨ c = '"' then
          parseValuesGo rest (some c) (current ++ [c]) true c depth
        else if c = '(' ∨ c = '\x7b' then
          parseValuesGo rest (some c) (current ++ [c]) inString stringChar (depth + 1)
        else if c = ')' ∨ c = '\x7d' then
          parseValuesGo rest (some c) (current ++ [c]) inString stringChar (depth - 1)
        else if c = ',' ∧ depth = 0 then
          cleanValue ⟨trimChars current⟩ ::
            parseValuesGo rest (some c) [] inString stringChar depth
        else
          parseValuesGo rest (some c) (current ++ [c]) inString stringChar depth
      else
        if c = stringChar ∧ prev ≠ some '\\' then
          parseValuesGo rest (some c) (current ++ [c]) false stringChar depth
        else
          parseValuesGo rest (some c) (current ++ [c]) true stringChar depth

/-- Embedding of `parseValues`.  The initial `stringChar` is arbitrary: the
source initialises it to the empty string and never reads it before
assigning it. -/
def parseValues (valueString : String) : List SQLValue :=
  parseValuesGo valueString.data none [] false ' ' 0

/-! ## The Schema Parser (`parseCreateTable`) -/

/-- A parsed column: name plus the verbatim remainder of the declaration. -/
structure ColumnDefinition where
  name : String
  type : String
deriving DecidableEq, Repr

/-- One row object: a JS object mapping column names to typed values,
modelled as an insertion-ordered association list with unique keys. -/
abbrev Row := List (String × SQLValue)

/-- Registry entry: table name, ordered columns, accumulated row objects. -/
structure TableInfo where
  tableName : String
  columns : List ColumnDefinition
  data : List Row
deriving DecidableEq, Repr

/-- The character class `[^`\s(]` of the table-name regexes. -/
def ctNameClass (c : Char) : Bool := !(c = '\x60' || isWS c || c = '(')

/-- One anchored attempt of `CREATE TABLE\s+\x60?([^\x60\s(]+)\x60?\s*\(`
(case-insensitive) at the start of `l`, returning the captured name.  Each
quantifier here is deterministic: the optional backticks and the greedy
runs cannot give back characters usefully because the neighbouring
character classes are disjoint. -/
def matchCTFrom (l : List Char) : Option (List Char) :=
  match stripPrefixCI ("CREATE TABLE".data) l with
  | none => none
  | some r1 =>
    let k := (r1.takeWhile isWS).length
    if k = 0 then none else
    let r2 := r1.drop k
    let r3 := match r2 with | '\x60' :: t => t | _ => r2
    let nm := r3.takeWhile ctNameClass
    if nm = [] then none else
    let r4 := r3.drop nm.length
    let r5 := match r4 with | '\x60' :: t => t | _ => r4
    match r5.dropWhile isWS with
    | '(' :: _ => some nm
    | _ => none

/-- Leftmost match of the `CREATE TABLE` table-name regex: `String.match`
tries every start position from the left. -/
def matchCTName : List Char → Option (List Char)
  | [] => none
  | l@(_ :: t) =>
      match matchCTFrom l with
      | some nm => some nm
      | none => matchCTName t

/-- Strip of the historical `SERVMASK_PREFIX_` export-tool prefix. -/
def stripServmask (l : List Char) : List Char :=
  if ("SERVMASK_PREFIX_".data).isPrefixOf l then l.drop ("SERVMASK_PREFIX_".data).length
  else l

/-- The depth-tracking comma split of the TS `parseCreateTable`: commas at
parenthesis depth 0 separate segments, each pushed trimmed; the final
buffer is pushed when its trimmed form is non-empty. -/
def splitDepth0Go : List Char → List Char → Int → List (List Char)
  | [], current, _ =>
      if trimChars current = [] then [] else [trimChars current]
  | c :: rest, current, depth =>
      if c = '(' then splitDepth0Go rest (current ++ [c]) (depth + 1)
      else if c = ')' then splitDepth0Go rest (current ++ [c]) (depth - 1)
      else if c = ',' ∧ depth = 0 then trimChars current :: splitDepth0Go rest [] depth
      else splitDepth0Go rest (current ++ [c]) depth

def splitDepth0 (l : List Char) : List (List Char) := splitDepth0Go l [] 0

/-- The skip conditions shared by both column loops: blank, `--` comment,
`PRIMARY KEY`, `KEY `, `UNIQUE KEY`, `FOREIGN KEY` prefixes (upper-cased),
or `ENGINE=` anywhere (upper-cased). -/
def skipSegment (trimmed : List Char) : Bool :=
  trimmed.isEmpty ||
  ("--".data).isPrefixOf trimmed ||
  ("PRIMARY KEY".data).isPrefixOf (upperL trimmed) ||
  ("KEY ".data).isPrefixOf (upperL trimmed) ||
  ("UNIQUE KEY".data).isPrefixOf (upperL trimmed) ||
  ("FOREIGN KEY".data).isPrefixOf (upperL trimmed) ||
  hasSub ("ENGINE=".data) (upperL trimmed)

/-- `.` of a JS regex without the `s` flag: any character except a line
terminator. -/
def noNL (l : List Char) : Bool := l.all (fun c => !(c = '\n' || c = '\r'))

/-- Backtracking search for `\s+(.+)$` at `l`: the greedy `\s+` tries `j`
whitespace characters from the maximum down to 1; `(.+)$` then forces the
capture to be the entire non-empty, terminator-free remainder. -/
def wsRestSearch : Nat → List Char → Option (List Char)
  | 0, _ => none
  | j + 1, l =>
      let rem := l.drop (j + 1)
      if rem ≠ [] ∧ noNL rem then some rem else wsRestSearch j l

def spacesThenRest (l : List Char) : Option (List Char) :=
  wsRestSearch ((l.takeWhile isWS).length) l

/-- The part `\x60?\s+(.+)$` after the name in the TS column regex.  The
optional backtick is greedy; when it is not taken a leading backtick makes
`\s+` fail, which the fallback branch reproduces. -/
def afterNameTS (l : List Char) : Option (List Char) :=
  match l with
  | '\x60' :: t =>
      (match spacesThenRest t with
       | some r => some r
       | none => spacesThenRest l)
  | _ => spacesThenRest l

/-- The character class `[^\x60\s]` of the TS column regex. -/
def nameClassTS (c : Char) : Bool := !(c = '\x60' || isWS c)

/-- Greedy-with-backtracking search for `([^\x60\s]+)` followed by
`\x60?\s+(.+)$`: name lengths are tried from the maximal munch down to 1. -/
def nameSearchTS : Nat → List Char → Option (List Char × List Char)
  | 0, _ => none
  | m + 1, t =>
      match afterNameTS (t.drop (m + 1)) with
      | some rest => some (t.take (m + 1), rest)
      | none => nameSearchTS m t

/-- The TS column regex `^\x60?([^\x60\s]+)\x60?\s+(.+)$`, returning the
two captures. -/
def tsColumnMatch (s : List Char) : Option (List Char × List Char) :=
  match s with
  | '\x60' :: rest =>
      (match nameSearchTS ((rest.takeWhile nameClassTS).length) rest with
       | some p => some p
       | none => nameSearchTS ((s.takeWhile nameClassTS).length) s)
  | _ => nameSearchTS ((s.takeWhile nameClassTS).length) s

/-- One iteration of the TS column loop: trim, skip, match, and emit the
name and the trimmed remainder as the type. -/
def tsParseColumn (colDef : List Char) : Option ColumnDefinition :=
  let trimmed := trimChars colDef
  if skipSegment trimmed then none
  else
    match tsColumnMatch trimmed with
    | some (nm, rest) => some ⟨⟨nm⟩, ⟨trimChars rest⟩⟩
    | none => none

/-- Embedding of the TS `parseCreateTable`: table name via the regex, column
body between the first `(` and the last `)`, split at depth-0 commas, each
segment through the skip conditions and the column regex. -/
def tsParseCreateTable (sql : String) : Option TableInfo :=
  match matchCTName sql.data with
  | none => none
  | some nm =>
    let tableName : String := ⟨stripServmask nm⟩
    match idxOf sql.data '(', lastIdxOf sql.data ')' with
    | some startParen, some endParen =>
        let columnsPart := jsSubstring sql.data (startParen + 1) endParen
        some ⟨tableName, (splitDepth0 columnsPart).filterMap tsParseColumn, []⟩
    | _, _ => none

/-- `(?:,\s*)?$` of the JS column regex: the remainder is empty, or a comma
followed by whitespace only. -/
def tailOkJS : List Char → Bool
  | [] => true
  | ',' :: w => w.all isWS
  | _ => false

/-- Lazy `(.+?)(?:,\s*)?$`: content lengths are tried from 1 upward; the
content may not contain a line terminator. -/
def lazyRestJS : List Char → List Char → Option (List Char)
  | pre, rest =>
      if pre ≠ [] ∧ noNL pre ∧ tailOkJS rest then some pre
      else
        match rest with
        | [] => none
        | c :: r => lazyRestJS (pre ++ [c]) r

/-- Greedy `\s+` (outer, tried longest first) combined with the lazy
remainder search. -/
def wsLazySearchJS : Nat → List Char → Option (List Char)
  | 0, _ => none
  | j + 1, l =>
      match lazyRestJS [] (l.drop (j + 1)) with
      | some c => some c
      | none => wsLazySearchJS j l

/-- The JS column regex `^\x60([^\x60]+)\x60\s+(.+?)(?:,\s*)?$`: backticks
around the name are mandatory here. -/
def jsColumnMatch (s : List Char) : Option (List Char × List Char) :=
  match s with
  | '\x60' :: rest =>
      let nm := rest.takeWhile (fun c => !(c = '\x60'))
      if nm = [] then none
      else
        match rest.drop nm.length with
        | '\x60' :: r2 =>
            (match wsLazySearchJS ((r2.takeWhile isWS).length) r2 with
             | some cap => some (nm, cap)
             | none => none)
        | _ => none
  | _ => none

/-- `replace(/,$/, "")` applied to the captured column type. -/
def dropTrailingComma (l : List Char) : List Char :=
  match l.getLast? with
  | some ',' => l.dropLast
  | _ => l

/-- One iteration of the JS column loop (applied per line). -/
def jsParseColumn (line : List Char) : Option ColumnDefinition :=
  let trimmed := trimChars line
  if skipSegment trimmed then none
  else
    match jsColumnMatch trimmed with
    | some (nm, cap) => some ⟨⟨nm⟩, ⟨dropTrailingComma (trimChars cap)⟩⟩
    | none => none

/-- Embedding of the JS `parseCreateTable` from `bin/cli.js`: the same table
name regex and paren bounds as the TS version, but the column body is split
at newlines and each line must carry a backticked column name. -/
def jsParseCreateTable (sql : String) : Option TableInfo :=
  match matchCTName sql.data with
  | none => none
  | some nm =>
    let tableName : String := ⟨stripServmask nm⟩
    match idxOf sql.data '(', lastIdxOf sql.data ')' with
    | some startParen, some endParen =>
        let columnsPart := jsSubstring sql.data (startParen + 1) endParen
        some ⟨tableName, (splitOnChar columnsPart '\n').filterMap jsParseColumn, []⟩
    | _, _ => none

/-! ## The INSERT parser (`parseInsertInto`) -/

/-- One anchored attempt of
`INSERT INTO\s+\x60?([^\x60\s(]+)\x60?\s*(?:\([^)]+\))?\s*VALUES`
(case-insensitive) at the start of `l`, returning the captured name.  The
optional column-list group is greedy; if it matches but `VALUES` does not
follow, the engine retries with the group skipped. -/
def matchInsertFrom (l : List Char) : Option (List Char) :=
  match stripPrefixCI ("INSERT INTO".data) l with
  | none => none
  | some r1 =>
    let k := (r1.takeWhile isWS).length
    if k = 0 then none else
    let r2 := r1.drop k
    let r3 := match r2 with | '\x60' :: t => t | _ => r2
    let nm := r3.takeWhile ctNameClass
    if nm = [] then none else
    let r4 := r3.drop nm.length
    let r5 := match r4 with | '\x60' :: t => t | _ => r4
    let t := r5.dropWhile isWS
    let afterGroup : Option (List Char) :=
      match t with
      | '(' :: u =>
          let inner := u.takeWhile (fun c => !(c = ')'))
          if inner = [] then none
          else
            match u.drop inner.length with
            | ')' :: v => some v
            | _ => none
      | _ => none
    match afterGroup with
    | some v =>
        if (stripPrefixCI ("VALUES".data) (v.dropWhile isWS)).isSome then some nm
        else if (stripPrefixCI ("VALUES".data) (t.dropWhile isWS)).isSome then some nm
        else none
    | none =>
        if (stripPrefixCI ("VALUES".data) (t.dropWhile isWS)).isSome then some nm else none

/-- Leftmost match of the `INSERT INTO` table-name regex. -/
def matchInsertName : List Char → Option (List Char)
  | [] => none
  | l@(_ :: t) =>
      match matchInsertFrom l with
      | some nm => some nm
      | none => matchInsertName t

/-- One anchored attempt of `VALUES\s*(.*)` with the `i` and `s` flags:
after the literal, greedy `\s*` then the capture is the whole remainder. -/
def matchValuesFrom (l : List Char) : Option (List Char) :=
  match stripPrefixCI ("VALUES".data) l with
  | none => none
  | some r => some (r.dropWhile isWS)

/-- Leftmost match of `VALUES\s*(.*)`. -/
def matchValuesCapture : List Char → Option (List Char)
  | [] => none
  | l@(_ :: t) =>
      match matchValuesFrom l with
      | some c => some c
      | none => matchValuesCapture t

/-- Single-pass model of `split(/\),\s*\(/)`: `pending` holds the prefix of
a separator matched so far (`[]`, or `)`, or `),` plus a whitespace run).
On a failed attempt the buffered characters flow back into the current
piece and scanning resumes, re-attempting at the failure character, which
is the only position inside the buffer where a new separator can start. -/
def splitRowsGo : List Char → List Char → List Char → List (List Char)
  | [], acc, pending => [acc ++ pending]
  | c :: rest, acc, pending =>
      match pending with
      | [] =>
          if c = ')' then splitRowsGo rest acc [c]
          else splitRowsGo rest (acc ++ [c]) []
      | [')'] =>
          if c = ',' then splitRowsGo rest acc [')', ',']
          else if c = ')' then splitRowsGo rest (acc ++ [')']) [')']
          else splitRowsGo rest (acc ++ [')', c]) []
      | pend =>
          if isWS c then splitRowsGo rest acc (pend ++ [c])
          else if c = '(' then acc :: splitRowsGo rest [] []
          else if c = ')' then splitRowsGo rest (acc ++ pend) [')']
          else splitRowsGo rest (acc ++ pend ++ [c]) []

def splitRows (l : List Char) : List (List Char) := splitRowsGo l [] []

/-- `replace(/^\(/, "")`. -/
def stripLeadParen : List Char → List Char
  | '(' :: t => t
  | l => l

/-- Does the remainder after a candidate `)` match `;?\s*$`? -/
def trailOk : List Char → Bool
  | ';' :: w => w.all isWS
  | w => w.all isWS

/-- `replace(/\);?\s*$/, "")`: cut at the leftmost `)` whose remainder is an
optional semicolon followed by whitespace. -/
def stripTrailParen : List Char → List Char
  | [] => []
  | ')' :: rest => if trailOk rest then [] else ')' :: stripTrailParen rest
  | c :: rest => c :: stripTrailParen rest

/-- Result of `parseInsertInto`: prefix-stripped table name plus one value
array per row group. -/
structure InsertInfo where
  tableName : String
  records : List (List SQLValue)
deriving DecidableEq, Repr

/-- Embedding of `parseInsertInto` (identical in both sources): extract the
name, isolate the text after `VALUES`, split into row groups at `),(`,
strip one leading `(` and one trailing `);`-and-whitespace per group, and
tokenize each group.  The source guards each tokenization with
`if (values)`, which is always true of an array, so every group yields a
record. -/
def parseInsertInto (sql : String) : Option InsertInfo :=
  match matchInsertName sql.data with
  | none => none
  | some nm =>
    let tableName : String := ⟨stripServmask nm⟩
    match matchValuesCapture sql.data with
    | none => none
    | some valuesString =>
        let valueGroups := splitRows valuesString
        let records := valueGroups.map
          (fun g => parseValues ⟨stripTrailParen (stripLeadParen g)⟩)
        some ⟨tableName, records⟩

/-! ## The Table Registry and the dispatcher (`processStatement`) -/

/-- The registry: a JS object from table name to `TableInfo`, modelled as an
insertion-ordered association list with unique keys. -/
abbrev Tables := List (String × TableInfo)

/-- Property read `tables[name]`. -/
def tblGet (tbl : Tables) (n : String) : Option TableInfo :=
  (tbl.find? (fun q => q.1 == n)).map (fun q => q.2)

/-- Property write `tables[name] = x`: replace in place when the key exists,
append otherwise. -/
def tblSet (tbl : Tables) (n : String) (x : TableInfo) : Tables :=
  if tbl.any (fun q => q.1 == n) then
    tbl.map (fun q => if q.1 == n then (n, x) else q)
  else tbl ++ [(n, x)]

/-- Property write `obj[k] = v` on a row object. -/
def objSet (obj : Row) (k : String) (v : SQLValue) : Row :=
  if obj.any (fun kv => kv.1 == k) then
    obj.map (fun kv => if kv.1 == k then (k, v) else kv)
  else obj ++ [(k, v)]

/-- A step of the row-building loop, abstracted for reuse in lemmas. -/
def mkRowStep (record : List SQLValue) (obj : Row) (ic : Nat × ColumnDefinition) : Row :=
  match record.get? ic.1 with
  | some v => objSet obj ic.2.name v
  | none => obj

/-- The row-building loop of the INSERT branch:
`columns.forEach((col, index) => if (index < record.length)
obj[col.name] = record[index])`. -/
def mkRow (cols : List ColumnDefinition) (record : List SQLValue) : Row :=
  (cols.enum).foldl (mkRowStep record) []

/-- Converter state: the configured statement limit plus the mutable fields
of the converter object that `processStatement` touches. -/
structure ConvState where
  limit : Option Nat
  processedStatements : Nat
  tables : Tables
  currentTable : Option String
  insideTransaction : Bool
deriving DecidableEq, Repr

/-- The guard `this.limit && this.processedStatements > this.limit`: the
constructor turns a zero or missing limit option into `null`, and `0` is
falsy, so a `some 0` limit is also inert. -/
def limitHit (st : ConvState) : Bool :=
  match st.limit with
  | some n => decide (n ≠ 0) && decide (st.processedStatements > n)
  | none => false

/-- Embedding of the TS `processStatement`: trim; empty means continue
without touching anything; increment the counter; stop when over the
limit; then dispatch on the leading keyword. -/
def tsProcessStatement (st : ConvState) (sql0 : String) : Bool × ConvState :=
  let sql := jsTrim sql0
  if sql = "" then (true, st)
  else
    let st1 := { st with processedStatements := st.processedStatements + 1 }
    if limitHit st1 then (false, st1)
    else if jsStartsWith sql "START TRANSACTION" then
      (true, { st1 with insideTransaction := true })
    else if jsStartsWith sql "COMMIT" then
      (true, { st1 with insideTransaction := false })
    else if jsStartsWith (jsToUpper sql) "DROP TABLE" then (true, st1)
    else if jsStartsWith (jsToUpper sql) "CREATE TABLE" then
      match tsParseCreateTable sql with
      | some ti =>
          (true, { st1 with tables := tblSet st1.tables ti.tableName ti,
                            currentTable := some ti.tableName })
      | none => (true, st1)
    else if jsStartsWith (jsToUpper sql) "INSERT INTO" then
      match parseInsertInto sql with
      | some info =>
          (match tblGet st1.tables info.tableName with
           | some table =>
               let newData := table.data ++
                 info.records.map (fun record => mkRow table.columns record)
               let newTables := tblSet st1.tables info.tableName { table with data := newData }
               (true, { st1 with tables := newTables })
           | none => (true, st1))
      | none => (true, st1)
    else (true, st1)

/-- Embedding of the JS `processStatement` from `bin/cli.js`.  It differs
from the TS one in two places: an empty statement hits a bare `return;`
(modelled as `none`), and the newline-splitting `parseCreateTable` is
used. -/
def jsProcessStatement (st : ConvState) (sql0 : String) : Option Bool × ConvState :=
  let sql := jsTrim sql0
  if sql = "" then (none, st)
  else
    let st1 := { st with processedStatements := st.processedStatements + 1 }
    if limitHit st1 then (some false, st1)
    else if jsStartsWith sql "START TRANSACTION" then
      (some true, { st1 with insideTransaction := true })
    else if jsStartsWith sql "COMMIT" then
      (some true, { st1 with insideTransaction := false })
    else if jsStartsWith (jsToUpper sql) "DROP TABLE" then (some true, st1)
    else if jsStartsWith (jsToUpper sql) "CREATE TABLE" then
      match jsParseCreateTable sql with
      | some ti =>
          (some true, { st1 with tables := tblSet st1.tables ti.tableName ti,
                                 currentTable := some ti.tableName })
      | none => (some true, st1)
    else if jsStartsWith (jsToUpper sql) "INSERT INTO" then
      match parseInsertInto sql with
      | some info =>
          (match tblGet st1.tables info.tableName with
           | some table =>
               let newData := table.data ++
                 info.records.map (fun record => mkRow table.columns record)
               let newTables := tblSet st1.tables info.tableName { table with data := newData }
               (some true, { st1 with tables := newTables })
           | none => (some true, st1))
      | none => (some true, st1)
    else (some true, st1)

/-! ## Helper lemmas -/

theorem not_prefix_of_isPrefixOf_false {p q : List Char} (h : p.isPrefixOf q = false) :
    ¬ p <+: q := by
  intro hp
  rw [(List.isPrefixOf_iff_prefix).mpr hp] at h
  exact Bool.noConfusion h

theorem jsStartsWith_prefixed {s p : String} (h : jsStartsWith s p = true) :
    p.data <+: s.data :=
  (List.isPrefixOf_iff_prefix).mp h

/-- Two incomparable prefixes of the same list are contradictory. -/
theorem prefix_conflict {a b l : List Char} (ha : a <+: l) (hb : b <+: l)
    (h1 : ¬ a <+: b) (h2 : ¬ b <+: a) : False := by
  rcases List.prefix_or_prefix_of_prefix ha hb with h | h
  · exact h1 h
  · exact h2 h

/-- If the upper-cased statement starts with keyword `kw`, it cannot also
start with an incomparable keyword `other`. -/
theorem upper_guard_false {s kw other : String}
    (h : jsStartsWith (jsToUpper s) kw = true)
    (h1 : other.data.isPrefixOf kw.data = false)
    (h2 : kw.data.isPrefixOf other.data = false) :
    jsStartsWith (jsToUpper s) other = false := by
  cases hb : jsStartsWith (jsToUpper s) other with
  | false => rfl
  | true =>
      exact (prefix_conflict (jsStartsWith_prefixed hb) (jsStartsWith_prefixed h)
        (not_prefix_of_isPrefixOf_false h1) (not_prefix_of_isPrefixOf_false h2)).elim

/-- If the upper-cased statement starts with keyword `kw`, the original
statement cannot start with an already-uppercase incomparable keyword. -/
theorem cs_guard_false {s kw other : String}
    (h : jsStartsWith (jsToUpper s) kw = true)
    (hup : upperL other.data = other.data)
    (h1 : other.data.isPrefixOf kw.data = false)
    (h2 : kw.data.isPrefixOf other.data = false) :
    jsStartsWith s other = false := by
  cases hb : jsStartsWith s other with
  | false => rfl
  | true =>
      have hmap : other.data <+: (jsToUpper s).data := by
        have h3 := (jsStartsWith_prefixed hb).map Char.toUpper
        rw [show List.map Char.toUpper other.data = upperL other.data from rfl, hup] at h3
        exact h3
      exact (prefix_conflict hmap (jsStartsWith_prefixed h)
        (not_prefix_of_isPrefixOf_false h1) (not_prefix_of_isPrefixOf_false h2)).elim

/-- A statement whose upper-casing starts with a non-empty keyword is not
empty. -/
theorem ne_empty_of_upper_kw {s kw : String}
    (h : jsStartsWith (jsToUpper s) kw = true) (hk : kw.data ≠ []) :
    ¬ s = "" := by
  intro he
  subst he
  have := jsStartsWith_prefixed h
  have : kw.data <+: ([] : List Char) := this
  exact hk (List.prefix_nil.mp this)

/-! ### Registry lemmas -/

theorem tblGet_tblSet_self (tbl : Tables) (n : String) (x : TableInfo) :
    tblGet (tblSet tbl n x) n = some x := by
  unfold tblSet
  by_cases h : tbl.any (fun q => q.1 == n) = true
  · rw [if_pos h]
    induction tbl with
    | nil => simp at h
    | cons q t ih =>
        simp only [List.map_cons]
        by_cases hq : q.1 == n
        · simp [tblGet, List.find?, hq]
        · simp only [List.any_cons, hq, Bool.false_or] at h
          simp only [hq, if_neg]
          have := ih h
          simpa [tblGet, List.find?, hq] using this
  · rw [if_neg h]
    have hnone : tbl.find? (fun q => q.1 == n) = none := by
      rw [List.find?_eq_none]
      intro q hq hbeq
      exact h (List.any_eq_true.mpr ⟨q, hq, hbeq⟩)
    simp [tblGet, List.find?_append, hnone, List.find?]

theorem mem_tblSet {tbl : Tables} {n : String} {x : TableInfo} {p : String × TableInfo}
    (hp : p ∈ tblSet tbl n x) : p.2 = x ∨ p ∈ tbl := by
  unfold tblSet at hp
  by_cases h : tbl.any (fun q => q.1 == n) = true
  · rw [if_pos h] at hp
    rcases List.mem_map.mp hp with ⟨q, hq, hqe⟩
    by_cases hb : q.1 == n
    · rw [if_pos hb] at hqe
      left
      rw [← hqe]
    · rw [if_neg hb] at hqe
      right
      rw [← hqe]
      exact hq
  · rw [if_neg h] at hp
    rcases List.mem_append.mp hp with h1 | h1
    · right; exact h1
    · left
      rcases List.mem_singleton.mp h1 with rfl
      rfl

theorem tblGet_mem {tbl : Tables} {n : String} {x : TableInfo}
    (h : tblGet tbl n = some x) : (n, x) ∈ tbl := by
  unfold tblGet at h
  cases hf : tbl.find? (fun q => q.1 == n) with
  | none => rw [hf] at h; exact absurd h (by simp)
  | some q =>
      rw [hf] at h
      have hq1 : q.1 = n := by
        have := List.find?_some hf
        exact eq_of_beq this
      have hq2 : q.2 = x := by
        simpa using h
      have hmem := List.mem_of_find?_eq_some hf
      have : q = (n, x) := by
        cases q
        simp_all
      rw [← this]
      exact hmem

/-! ### Row object lemmas -/

theorem mem_objSet {obj : Row} {k : String} {v : SQLValue} {kv : String × SQLValue}
    (hp : kv ∈ objSet obj k v) : kv.1 = k ∨ kv ∈ obj := by
  unfold objSet at hp
  by_cases h : obj.any (fun q => q.1 == k) = true
  · rw [if_pos h] at hp
    rcases List.mem_map.mp hp with ⟨q, hq, hqe⟩
    by_cases hb : q.1 == k
    · rw [if_pos hb] at hqe
      left; rw [← hqe]
    · rw [if_neg hb] at hqe
      right; rw [← hqe]; exact hq
  · rw [if_neg h] at hp
    rcases List.mem_append.mp hp with h1 | h1
    · right; exact h1
    · left
      rcases List.mem_singleton.mp h1 with rfl
      rfl

theorem objSet_of_not_mem {obj : Row} {k : String} {v : SQLValue}
    (h : ∀ kv ∈ obj, ¬ kv.1 = k) : objSet obj k v = obj ++ [(k, v)] := by
  unfold objSet
  rw [if_neg]
  intro hany
  rcases List.any_eq_true.mp hany with ⟨q, hq, hbeq⟩
  exact h q hq (eq_of_beq hbeq)

/-- Closed form of the row-building fold over `enumFrom`, under distinct
column names: it appends the positional pairs. -/
theorem mkRow_fold_closed (record : List SQLValue) :
    ∀ (cols : List ColumnDefinition) (n : Nat) (obj : Row),
      (∀ kv ∈ obj, kv.1 ∉ cols.map ColumnDefinition.name) →
      (cols.map ColumnDefinition.name).Nodup →
      (List.enumFrom n cols).foldl (mkRowStep record) obj =
        obj ++ (cols.zip (record.drop n)).map (fun p => (p.1.name, p.2)) := by
  intro cols
  induction cols with
  | nil => intro n obj _ _; simp [List.enumFrom]
  | cons c cs ih =>
      intro n obj hobj hnd
      have hnd' : (c.name :: cs.map ColumnDefinition.name).Nodup := by
        simpa using hnd
      have hcnotin : c.name ∉ cs.map ColumnDefinition.name :=
        (List.nodup_cons.mp hnd').1
      have hnd2 : (cs.map ColumnDefinition.name).Nodup :=
        (List.nodup_cons.mp hnd').2
      rw [List.enumFrom_cons, List.foldl_cons]
      cases hg : record.get? n with
      | none =>
          have hlen : record.length ≤ n := List.get?_eq_none.mp hg
          have hstep : mkRowStep record obj (n, c) = obj := by
            unfold mkRowStep
            rw [hg]
          rw [hstep]
          have hd1 : record.drop n = [] := List.drop_eq_nil_of_le hlen
          have hd2 : record.drop (n + 1) = [] :=
            List.drop_eq_nil_of_le (Nat.le_succ_of_le hlen)
          rw [ih (n + 1) obj (fun kv hkv => fun hmem =>
            hobj kv hkv (by simp [hmem])) hnd2]
          rw [hd1, hd2]
          simp
      | some v =>
          have hstep : mkRowStep record obj (n, c) = obj ++ [(c.name, v)] := by
            unfold mkRowStep
            rw [hg]
            exact objSet_of_not_mem (fun kv hkv => fun he =>
              hobj kv hkv (by simp [he]))
          rw [hstep]
          have hobj2 : ∀ kv ∈ obj ++ [(c.name, v)], kv.1 ∉ cs.map ColumnDefinition.name := by
            intro kv hkv
            rcases List.mem_append.mp hkv with h1 | h1
            · exact fun hmem => hobj kv h1 (by simp [hmem])
            · rcases List.mem_singleton.mp h1 with rfl
              exact hcnotin
          rw [ih (n + 1) (obj ++ [(c.name, v)]) hobj2 hnd2]
          have hn : n < record.length := by
            rcases List.get?_eq_some.mp hg with ⟨h, _⟩
            exact h
          have hgv : record[n] = v := by
            rcases List.get?_eq_some.mp hg with ⟨h, hv⟩
            simpa using hv
          rw [List.drop_eq_getElem_cons hn, hgv, List.zip_cons_cons]
          simp [List.append_assoc]

/-- With pairwise-distinct column names the row object is exactly the
positional zip of columns with values. -/
theorem mkRow_closed (cols : List ColumnDefinition) (record : List SQLValue)
    (hnd : (cols.map ColumnDefinition.name).Nodup) :
    mkRow cols record = (cols.zip record).map (fun p => (p.1.name, p.2)) := by
  unfold mkRow
  have : cols.enum = List.enumFrom 0 cols := rfl
  rw [this, mkRow_fold_closed record cols 0 [] (by simp) hnd]
  simp

/-- Every key of the row-building fold comes from the ambient key set. -/
theorem mkRow_fold_subset (record : List SQLValue) (A : List String) :
    ∀ (cols : List ColumnDefinition) (n : Nat) (obj : Row),
      (∀ kv ∈ obj, kv.1 ∈ A) → (∀ c ∈ cols, c.name ∈ A) →
      ∀ kv ∈ (List.enumFrom n cols).foldl (mkRowStep record) obj, kv.1 ∈ A := by
  intro cols
  induction cols with
  | nil => intro n obj hobj _ kv hkv; exact hobj kv (by simpa [List.enumFrom] using hkv)
  | cons c cs ih =>
      intro n obj hobj hcols kv hkv
      rw [List.enumFrom_cons, List.foldl_cons] at hkv
      refine ih (n + 1) (mkRowStep record obj (n, c)) ?_ ?_ kv hkv
      · intro kv2 hkv2
        unfold mkRowStep at hkv2
        cases hg : record.get? n with
        | none => rw [hg] at hkv2; exact hobj kv2 hkv2
        | some v =>
            rw [hg] at hkv2
            rcases mem_objSet hkv2 with h1 | h1
            · rw [h1]; exact hcols c (by simp)
            · exact hobj kv2 h1
      · intro c2 hc2
        exact hcols c2 (by simp [hc2])

/-- Every key of a built row is a declared column name. -/
theorem mkRow_subset (cols : List ColumnDefinition) (record : List SQLValue) :
    ∀ kv ∈ mkRow cols record, kv.1 ∈ cols.map ColumnDefinition.name := by
  intro kv hkv
  unfold mkRow at hkv
  have : cols.enum = List.enumFrom 0 cols := rfl
  rw [this] at hkv
  exact mkRow_fold_subset record (cols.map ColumnDefinition.name) cols 0 []
    (by simp) (fun c hc => List.mem_map.mpr ⟨c, hc, rfl⟩) kv hkv

/-! ### Parser output shape lemmas -/

theorem tsParseCreateTable_data {sql : String} {ti : TableInfo}
    (h : tsParseCreateTable sql = some ti) : ti.data = [] := by
  unfold tsParseCreateTable at h
  cases hm : matchCTName sql.data with
  | none => rw [hm] at h; exact absurd h (by simp)
  | some nm =>
      rw [hm] at h
      cases h1 : idxOf sql.data '(' with
      | none => rw [h1] at h; exact absurd h (by simp)
      | some sp =>
          cases h2 : lastIdxOf sql.data ')' with
          | none => rw [h1, h2] at h; exact absurd h (by simp)
          | some ep =>
              rw [h1, h2] at h
              cases h
              rfl

theorem jsParseCreateTable_data {sql : String} {ti : TableInfo}
    (h : jsParseCreateTable sql = some ti) : ti.data = [] := by
  unfold jsParseCreateTable at h
  cases hm : matchCTName sql.data with
  | none => rw [hm] at h; exact absurd h (by simp)
  | some nm =>
      rw [hm] at h
      cases h1 : idxOf sql.data '(' with
      | none => rw [h1] at h; exact absurd h (by simp)
      | some sp =>
          cases h2 : lastIdxOf sql.data ')' with
          | none => rw [h1, h2] at h; exact absurd h (by simp)
          | some ep =>
              rw [h1, h2] at h
              cases h
              rfl

/-! ### The registry invariant -/

/-- Every row object stored under a table has only declared column names as
keys. -/
def tablesInv (tbl : Tables) : Prop :=
  ∀ p ∈ tbl, ∀ row ∈ p.2.data, ∀ kv ∈ row,
    kv.1 ∈ p.2.columns.map ColumnDefinition.name

/-- Registering a freshly parsed table (whose data is empty) preserves the
invariant. -/
theorem tablesInv_tblSet_create {tbl : Tables} {ti : TableInfo}
    (h : tablesInv tbl) (hd : ti.data = []) :
    tablesInv (tblSet tbl ti.tableName ti) := by
  intro p hp row hrow kv hkv
  rcases mem_tblSet hp with h1 | h1
  · rw [h1, hd] at hrow
    exact absurd hrow (by simp)
  · exact h p h1 row hrow kv hkv

/-- Appending positionally built rows to a registered table preserves the
invariant. -/
theorem tablesInv_insert {tbl : Tables} {n : String} {table : TableInfo}
    (records : List (List SQLValue))
    (h : tablesInv tbl) (hget : tblGet tbl n = some table) :
    tablesInv (tblSet tbl n
      { table with data := table.data ++
          records.map (fun record => mkRow table.columns record) }) := by
  intro p hp row hrow kv hkv
  rcases mem_tblSet hp with h1 | h1
  · rw [h1] at hrow
    simp only at hrow
    rw [h1]
    simp only
    rcases List.mem_append.mp hrow with ho | hn
    · exact h (n, table) (tblGet_mem hget) row ho kv hkv
    · rcases List.mem_map.mp hn with ⟨record, _, hrec⟩
      rw [← hrec] at hkv
      exact mkRow_subset table.columns record kv hkv
  · exact h p h1 row hrow kv hkv

/-- The TS dispatcher preserves the registry invariant. -/
theorem tsProcessStatement_inv (st : ConvState) (sql : String)
    (hinv : tablesInv st.tables) :
    tablesInv (tsProcessStatement st sql).2.tables := by
  by_cases he : jsTrim sql = ""
  · simpa [tsProcessStatement, he] using hinv
  cases hl : limitHit { st with processedStatements := st.processedStatements + 1 } with
  | true => simpa [tsProcessStatement, he, hl] using hinv
  | false =>
  cases h1 : jsStartsWith (jsTrim sql) "START TRANSACTION" with
  | true => simpa [tsProcessStatement, he, hl, h1] using hinv
  | false =>
  cases h2 : jsStartsWith (jsTrim sql) "COMMIT" with
  | true => simpa [tsProcessStatement, he, hl, h1, h2] using hinv
  | false =>
  cases h3 : jsStartsWith (jsToUpper (jsTrim sql)) "DROP TABLE" with
  | true => simpa [tsProcessStatement, he, hl, h1, h2, h3] using hinv
  | false =>
  cases h4 : jsStartsWith (jsToUpper (jsTrim sql)) "CREATE TABLE" with
  | true =>
      cases hc : tsParseCreateTable (jsTrim sql) with
      | none => simpa [tsProcessStatement, he, hl, h1, h2, h3, h4, hc] using hinv
      | some ti =>
          have hpres := tablesInv_tblSet_create hinv (tsParseCreateTable_data hc)
          simpa [tsProcessStatement, he, hl, h1, h2, h3, h4, hc] using hpres
  | false =>
  cases h5 : jsStartsWith (jsToUpper (jsTrim sql)) "INSERT INTO" with
  | false => simpa [tsProcessStatement, he, hl, h1, h2, h3, h4, h5] using hinv
  | true =>
      cases hi : parseInsertInto (jsTrim sql) with
      | none => simpa [tsProcessStatement, he, hl, h1, h2, h3, h4, h5, hi] using hinv
      | some info =>
          cases hg : tblGet st.tables info.tableName with
          | none =>
              simpa [tsProcessStatement, he, hl, h1, h2, h3, h4, h5, hi, hg] using hinv
          | some table =>
              have hpres := tablesInv_insert info.records hinv hg
              simpa [tsProcessStatement, he, hl, h1, h2, h3, h4, h5, hi, hg] using hpres

/-- The JS dispatcher preserves the registry invariant. -/
theorem jsProcessStatement_inv (st : ConvState) (sql : String)
    (hinv : tablesInv st.tables) :
    tablesInv (jsProcessStatement st sql).2.tables := by
  by_cases he : jsTrim sql = ""
  · simpa [jsProcessStatement, he] using hinv
  cases hl : limitHit { st with processedStatements := st.processedStatements + 1 } with
  | true => simpa [jsProcessStatement, he, hl] using hinv
  | false =>
  cases h1 : jsStartsWith (jsTrim sql) "START TRANSACTION" with
  | true => simpa [jsProcessStatement, he, hl, h1] using hinv
  | false =>
  cases h2 : jsStartsWith (jsTrim sql) "COMMIT" with
  | true => simpa [jsProcessStatement, he, hl, h1, h2] using hinv
  | false =>
  cases h3 : jsStartsWith (jsToUpper (jsTrim sql)) "DROP TABLE" with
  | true => simpa [jsProcessStatement, he, hl, h1, h2, h3] using hinv
  | false =>
  cases h4 : jsStartsWith (jsToUpper (jsTrim sql)) "CREATE TABLE" with
  | true =>
      cases hc : jsParseCreateTable (jsTrim sql) with
      | none => simpa [jsProcessStatement, he, hl, h1, h2, h3, h4, hc] using hinv
      | some ti =>
          have hpres := tablesInv_tblSet_create hinv (jsParseCreateTable_data hc)
          simpa [jsProcessStatement, he, hl, h1, h2, h3, h4, hc] using hpres
  | false =>
  cases h5 : jsStartsWith (jsToUpper (jsTrim sql)) "INSERT INTO" with
  | false => simpa [jsProcessStatement, he, hl, h1, h2, h3, h4, h5] using hinv
  | true =>
      cases hi : parseInsertInto (jsTrim sql) with
      | none => simpa [jsProcessStatement, he, hl, h1, h2, h3, h4, h5, hi] using hinv
      | some info =>
          cases hg : tblGet st.tables info.tableName with
          | none =>
              simpa [jsProcessStatement, he, hl, h1, h2, h3, h4, h5, hi, hg] using hinv
          | some table =>
              have hpres := tablesInv_insert info.records hinv hg
              simpa [jsProcessStatement, he, hl, h1, h2, h3, h4, h5, hi, hg] using hpres

/-! ## Claim theorems -/

/-- A fresh converter state: no limit, nothing processed, empty registry. -/
def initState : ConvState := ⟨none, 0, [], none, false⟩

/-- Claim C1 (amended): the TS `parseCreateTable` splits the column body only
at commas at parenthesis depth 0 — the comma inside `VARCHAR(10)` or
`DECIMAL(10,2)` never splits a column definition — and backticks around
column names are optional; the JS CLI `parseCreateTable` instead splits the
body at newlines and requires backticks, recovering the same columns only
on that shape. -/
theorem claim_C1 :
    tsParseCreateTable "CREATE TABLE t (a INT, b VARCHAR(10))" =
      some ⟨"t", [⟨"a", "INT"⟩, ⟨"b", "VARCHAR(10)"⟩], []⟩ ∧
    tsParseCreateTable "CREATE TABLE shop (price DECIMAL(10,2), tag VARCHAR(5))" =
      some ⟨"shop", [⟨"price", "DECIMAL(10,2)"⟩, ⟨"tag", "VARCHAR(5)"⟩], []⟩ ∧
    tsParseCreateTable "CREATE TABLE t (\x60a\x60 INT, \x60b\x60 VARCHAR(10))" =
      some ⟨"t", [⟨"a", "INT"⟩, ⟨"b", "VARCHAR(10)"⟩], []⟩ ∧
    jsParseCreateTable "CREATE TABLE t (\n\x60a\x60 INT,\n\x60b\x60 VARCHAR(10)\n)" =
      some ⟨"t", [⟨"a", "INT"⟩, ⟨"b", "VARCHAR(10)"⟩], []⟩ :=
  ⟨rfl, rfl, rfl, rfl⟩

/-- Claim C1, counterexample: on the very shape named by the claim the JS
implementation returns the table with an empty column list, not the two
declared columns. -/
theorem claim_C1_counterexample :
    jsParseCreateTable "CREATE TABLE t (a INT, b VARCHAR(10))" =
      some ⟨"t", [], []⟩ ∧
    ¬ jsParseCreateTable "CREATE TABLE t (a INT, b VARCHAR(10))" =
      some ⟨"t", [⟨"a", "INT"⟩, ⟨"b", "VARCHAR(10)"⟩], []⟩ :=
  ⟨rfl, by decide⟩

/-- Claim C2 (amended): the two `parseCreateTable` implementations agree on
success, on the extracted (prefix-stripped) table name, and on the empty
initial data, for every input; their column lists differ in general. -/
theorem claim_C2 : ∀ sql : String,
    (jsParseCreateTable sql).map (fun ti => (ti.tableName, ti.data)) =
      (tsParseCreateTable sql).map (fun ti => (ti.tableName, ti.data)) := by
  intro sql
  unfold jsParseCreateTable tsParseCreateTable
  cases matchCTName sql.data with
  | none => rfl
  | some nm =>
      cases idxOf sql.data '(' with
      | none => rfl
      | some sp =>
          cases lastIdxOf sql.data ')' with
          | none => rfl
          | some ep => rfl

/-- Claim C2, counterexample: the JS and TS `parseCreateTable` differ on a
single-line unbackticked statement, so the two cores are not duplicates. -/
theorem claim_C2_counterexample :
    ¬ jsParseCreateTable "CREATE TABLE t (a INT, b VARCHAR(10))" =
      tsParseCreateTable "CREATE TABLE t (a INT, b VARCHAR(10))" := by
  decide

/-- Claim C3: the Value Tokenizer splits only at commas outside quoted
strings at parenthesis and brace depth 0; the canonical text yields exactly
three tokens, a backslash-escaped quote does not terminate a string, braces
nest like parentheses, double quotes behave like single quotes, and the
final buffer is flushed at end of input. -/
theorem claim_C3 :
    parseValues "1, \x27a,b\x27, (2,3)" =
      [SQLValue.intVal 1, SQLValue.strVal "a,b", SQLValue.strVal "(2,3)"] ∧
    parseValues "\x27O\\\x27Brien\x27, 5" =
      [SQLValue.strVal "O\x27Brien", SQLValue.intVal 5] ∧
    parseValues "\x7b1,2\x7d, 3" =
      [SQLValue.strVal "\x7b1,2\x7d", SQLValue.intVal 3] ∧
    parseValues "\"x,y\", 1" = [SQLValue.strVal "x,y", SQLValue.intVal 1] ∧
    parseValues "7" = [SQLValue.intVal 7] :=
  ⟨rfl, rfl, rfl, rfl, rfl⟩

/-- Claim C4: the Literal Normalizer applies exactly the stated precedence:
trim, case-insensitive NULL, matching outer quotes with only the two quote
escapes rewritten, integer pattern, float pattern, verbatim fallback. -/
theorem claim_C4 :
    cleanValue "NULL" = SQLValue.nullVal ∧
    cleanValue "nUlL" = SQLValue.nullVal ∧
    cleanValue "\x275\x27" = SQLValue.strVal "5" ∧
    cleanValue "5" = SQLValue.intVal 5 ∧
    cleanValue "5.5" = SQLValue.floatVal "5.5" ∧
    cleanValue "\x27O\\\x27Brien\x27" = SQLValue.strVal "O\x27Brien" ∧
    cleanValue "\"a\\\"b\"" = SQLValue.strVal "a\"b" ∧
    cleanValue "\x27a\\nb\x27" = SQLValue.strVal "a\\nb" ∧
    cleanValue "  5  " = SQLValue.intVal 5 ∧
    cleanValue "-3" = SQLValue.intVal (-3) ∧
    cleanValue "-2.75" = SQLValue.floatVal "-2.75" ∧
    cleanValue "abc" = SQLValue.strVal "abc" ∧
    cleanValue "5." = SQLValue.strVal "5." :=
  ⟨rfl, rfl, rfl, rfl, rfl, rfl, rfl, rfl, rfl, rfl, rfl, rfl, rfl⟩

/-- Claim C8 (amended): an empty statement is a complete no-op: the counter
is not incremented (the emptiness check precedes the increment) and no
other field changes; the TS implementation returns true while the JS
implementation falls through a bare return, yielding undefined. -/
theorem claim_C8 : ∀ (st : ConvState) (sql : String), jsTrim sql = "" →
    tsProcessStatement st sql = (true, st) ∧
    jsProcessStatement st sql = (none, st) := by
  intro st sql h
  constructor
  · simp [tsProcessStatement, h]
  · simp [jsProcessStatement, h]

theorem claim_C8_witness :
    tsProcessStatement initState "" = (true, initState) ∧
    jsProcessStatement initState "" = (none, initState) :=
  claim_C8 initState "" rfl

/-- Claim C8, counterexample: processing the empty statement does not
increment `processedStatements`, contradicting the claim that the
increment happens for every statement before dispatch. -/
theorem claim_C8_counterexample :
    ¬ (tsProcessStatement initState "").2.processedStatements =
        initState.processedStatements + 1 := by
  decide

/-- Claim C5: a later successful CREATE TABLE for an already-registered name
replaces the registry entry entirely: afterwards the entry is exactly the
newly parsed table, whose accumulated data is empty.  Stated for both the
TS and the JS implementation. -/
theorem claim_C5 : ∀ (st : ConvState) (sql : String) (ti old : TableInfo),
    tblGet st.tables ti.tableName = some old →
    limitHit { st with processedStatements := st.processedStatements + 1 } = false →
    (jsStartsWith (jsToUpper (jsTrim sql)) "CREATE TABLE" = true →
      tsParseCreateTable (jsTrim sql) = some ti →
      (tsProcessStatement st sql).1 = true ∧
      tblGet (tsProcessStatement st sql).2.tables ti.tableName = some ti ∧
      ti.data = []) ∧
    (jsStartsWith (jsToUpper (jsTrim sql)) "CREATE TABLE" = true →
      jsParseCreateTable (jsTrim sql) = some ti →
      (jsProcessStatement st sql).1 = some true ∧
      tblGet (jsProcessStatement st sql).2.tables ti.tableName = some ti ∧
      ti.data = []) := by
  intro st sql ti old hold hlim
  constructor
  · intro hkw hparse
    have hne : ¬ jsTrim sql = "" := ne_empty_of_upper_kw hkw (by decide)
    have g1 : jsStartsWith (jsTrim sql) "START TRANSACTION" = false :=
      cs_guard_false hkw (by decide) (by decide) (by decide)
    have g2 : jsStartsWith (jsTrim sql) "COMMIT" = false :=
      cs_guard_false hkw (by decide) (by decide) (by decide)
    have g3 : jsStartsWith (jsToUpper (jsTrim sql)) "DROP TABLE" = false :=
      upper_guard_false hkw (by decide) (by decide)
    refine ⟨?_, ?_, tsParseCreateTable_data hparse⟩
    · simp [tsProcessStatement, hne, hlim, g1, g2, g3, hkw, hparse]
    · have htab : (tsProcessStatement st sql).2.tables =
          tblSet st.tables ti.tableName ti := by
        simp [tsProcessStatement, hne, hlim, g1, g2, g3, hkw, hparse]
      rw [htab, tblGet_tblSet_self]
  · intro hkw hparse
    have hne : ¬ jsTrim sql = "" := ne_empty_of_upper_kw hkw (by decide)
    have g1 : jsStartsWith (jsTrim sql) "START TRANSACTION" = false :=
      cs_guard_false hkw (by decide) (by decide) (by decide)
    have g2 : jsStartsWith (jsTrim sql) "COMMIT" = false :=
      cs_guard_false hkw (by decide) (by decide) (by decide)
    have g3 : jsStartsWith (jsToUpper (jsTrim sql)) "DROP TABLE" = false :=
      upper_guard_false hkw (by decide) (by decide)
    refine ⟨?_, ?_, jsParseCreateTable_data hparse⟩
    · simp [jsProcessStatement, hne, hlim, g1, g2, g3, hkw, hparse]
    · have htab : (jsProcessStatement st sql).2.tables =
          tblSet st.tables ti.tableName ti := by
        simp [jsProcessStatement, hne, hlim, g1, g2, g3, hkw, hparse]
      rw [htab, tblGet_tblSet_self]

/-- A registry state holding one table with an old schema and one stored
row, used to witness the replacement behaviour. -/
def preState : ConvState :=
  ⟨none, 3, [("t", ⟨"t", [⟨"x", "INT"⟩], [[("x", SQLValue.intVal 9)]]⟩)], none, false⟩

/-- The table parsed from the witness CREATE TABLE statement. -/
def newTi : TableInfo := ⟨"t", [⟨"a", "INT"⟩, ⟨"b", "VARCHAR(10)"⟩], []⟩

theorem claim_C5_witness :
    ((tsProcessStatement preState "CREATE TABLE t (a INT, b VARCHAR(10))").1 = true ∧
      tblGet (tsProcessStatement preState
        "CREATE TABLE t (a INT, b VARCHAR(10))").2.tables newTi.tableName =
        some newTi ∧
      newTi.data = []) ∧
    ((jsProcessStatement preState
        "CREATE TABLE t (\n\x60a\x60 INT,\n\x60b\x60 VARCHAR(10)\n)").1 = some true ∧
      tblGet (jsProcessStatement preState
        "CREATE TABLE t (\n\x60a\x60 INT,\n\x60b\x60 VARCHAR(10)\n)").2.tables
        newTi.tableName = some newTi ∧
      newTi.data = []) :=
  ⟨(claim_C5 preState "CREATE TABLE t (a INT, b VARCHAR(10))" newTi
      ⟨"t", [⟨"x", "INT"⟩], [[("x", SQLValue.intVal 9)]]⟩ rfl rfl).1 rfl rfl,
   (claim_C5 preState "CREATE TABLE t (\n\x60a\x60 INT,\n\x60b\x60 VARCHAR(10)\n)" newTi
      ⟨"t", [⟨"x", "INT"⟩], [[("x", SQLValue.intVal 9)]]⟩ rfl rfl).2 rfl rfl⟩

/-- Claim C6: an INSERT whose (prefix-stripped) table name is not in the
registry is silently ignored: the only state change is the statement
counter, the registry is untouched, and the continue signal is returned.
Stated for both implementations. -/
theorem claim_C6 : ∀ (st : ConvState) (sql : String) (info : InsertInfo),
    jsStartsWith (jsToUpper (jsTrim sql)) "INSERT INTO" = true →
    parseInsertInto (jsTrim sql) = some info →
    tblGet st.tables info.tableName = none →
    limitHit { st with processedStatements := st.processedStatements + 1 } = false →
    tsProcessStatement st sql =
      (true, { st with processedStatements := st.processedStatements + 1 }) ∧
    jsProcessStatement st sql =
      (some true, { st with processedStatements := st.processedStatements + 1 }) := by
  intro st sql info hkw hparse hget hlim
  have hne : ¬ jsTrim sql = "" := ne_empty_of_upper_kw hkw (by decide)
  have g1 : jsStartsWith (jsTrim sql) "START TRANSACTION" = false :=
    cs_guard_false hkw (by decide) (by decide) (by decide)
  have g2 : jsStartsWith (jsTrim sql) "COMMIT" = false :=
    cs_guard_false hkw (by decide) (by decide) (by decide)
  have g3 : jsStartsWith (jsToUpper (jsTrim sql)) "DROP TABLE" = false :=
    upper_guard_false hkw (by decide) (by decide)
  have g4 : jsStartsWith (jsToUpper (jsTrim sql)) "CREATE TABLE" = false :=
    upper_guard_false hkw (by decide) (by decide)
  constructor
  · simp [tsProcessStatement, hne, hlim, g1, g2, g3, g4, hkw, hparse, hget]
  · simp [jsProcessStatement, hne, hlim, g1, g2, g3, g4, hkw, hparse, hget]

theorem claim_C6_witness :
    tsProcessStatement initState "INSERT INTO nope VALUES (1);" =
      (true, { initState with processedStatements := initState.processedStatements + 1 }) ∧
    jsProcessStatement initState "INSERT INTO nope VALUES (1);" =
      (some true, { initState with processedStatements := initState.processedStatements + 1 }) :=
  claim_C6 initState "INSERT INTO nope VALUES (1);"
    ⟨"nope", [[SQLValue.intVal 1]]⟩ rfl rfl rfl rfl

/-- Claim C7: with a configured limit N, a non-empty statement increments
the counter and, once the counter exceeds N, the dispatcher returns the
stop signal with no other state change, so the registry accumulated so far
is retained.  Stated for both implementations. -/
theorem claim_C7 : ∀ (st : ConvState) (sql : String) (N : Nat),
    ¬ jsTrim sql = "" → st.limit = some N → ¬ N = 0 →
    st.processedStatements + 1 > N →
    tsProcessStatement st sql =
      (false, { st with processedStatements := st.processedStatements + 1 }) ∧
    jsProcessStatement st sql =
      (some false, { st with processedStatements := st.processedStatements + 1 }) := by
  intro st sql N hne hlim hN hgt
  have hhit : limitHit { st with processedStatements := st.processedStatements + 1 } = true := by
    simp [limitHit, hlim, hN, hgt]
  constructor
  · simp [tsProcessStatement, hne, hhit]
  · simp [jsProcessStatement, hne, hhit]

/-- A state over its configured limit of 1 with one accumulated table. -/
def limState : ConvState :=
  ⟨some 1, 1, [("t", ⟨"t", [⟨"a", "INT"⟩], [[("a", SQLValue.intVal 7)]]⟩)], none, false⟩

theorem claim_C7_witness :
    tsProcessStatement limState "COMMIT;" =
      (false, { limState with processedStatements := limState.processedStatements + 1 }) ∧
    jsProcessStatement limState "COMMIT;" =
      (some false, { limState with processedStatements := limState.processedStatements + 1 }) :=
  claim_C7 limState "COMMIT;" 1 (by decide) rfl (by decide) (by decide)

/-- Claim C9: the registry invariant — every stored row object has only
declared column names as keys — is preserved by every statement in both
implementations; rows are built positionally (with distinct column names
the row is exactly the zip of columns with values, truncated to the
shorter list, with no null-fill), and every row key is a declared column
name. -/
theorem claim_C9 :
    (∀ (st : ConvState) (sql : String), tablesInv st.tables →
      tablesInv (tsProcessStatement st sql).2.tables) ∧
    (∀ (st : ConvState) (sql : String), tablesInv st.tables →
      tablesInv (jsProcessStatement st sql).2.tables) ∧
    (∀ (cols : List ColumnDefinition) (record : List SQLValue),
      (cols.map ColumnDefinition.name).Nodup →
      mkRow cols record = (cols.zip record).map (fun p => (p.1.name, p.2))) ∧
    (∀ (cols : List ColumnDefinition) (record : List SQLValue),
      ∀ kv ∈ mkRow cols record, kv.1 ∈ cols.map ColumnDefinition.name) :=
  ⟨tsProcessStatement_inv, jsProcessStatement_inv, mkRow_closed, mkRow_subset⟩

theorem claim_C9_witness :
    tablesInv (tsProcessStatement preState "INSERT INTO t VALUES (1,2,3);").2.tables ∧
    mkRow [⟨"a", "INT"⟩, ⟨"b", "INT"⟩] [SQLValue.intVal 1] =
      [("a", SQLValue.intVal 1)] :=
  ⟨claim_C9.1 preState "INSERT INTO t VALUES (1,2,3);"
     (by intro p hp row hrow kv hkv
         simp [preState] at hp
         subst hp
         simp at hrow
         subst hrow
         simp at hkv
         subst hkv
         simp),
   (claim_C9.2.2.1 [⟨"a", "INT"⟩, ⟨"b", "INT"⟩] [SQLValue.intVal 1] (by decide)).trans rfl⟩

/-- Claim C10: an interior empty segment between two depth-0 commas is
emitted and normalizes to the empty string, while an empty final segment
after a trailing comma is dropped. -/
theorem claim_C10 :
    parseValues "1,,2" =
      [SQLValue.intVal 1, SQLValue.strVal "", SQLValue.intVal 2] ∧
    parseValues "1,2," = [SQLValue.intVal 1, SQLValue.intVal 2] :=
  ⟨rfl, rfl⟩

end SQLJson
